import Mathlib

/-!
Verification of the `convex-onboardings` core (`packages/lib/src/server.ts`,
entityId-based API). The persisted record store is modelled as a list of
`OnboardingRecord`; the composite-index `.unique()` lookup becomes `List.find?`
on the composite key, `db.patch` of the found record becomes an update of the
first key-matching element, `db.insert` an append, and `db.delete` the removal
of the first key-matching element. `Date.now()` is modelled by an explicit
`now : Nat` argument threaded into each mutation. Fallible operations return
`Except OnbError`. Lifecycle callbacks (`onComplete`, `onAllRequiredComplete`)
are modelled by an event log on the mutation state, gated by presence flags in
the config, mirroring `if (config.onComplete)` / `if (config.onAllRequiredComplete)`.
A definition's `handle` function is modelled as the finite trace of
handler-context calls it performs (`complete`, `skip`, `isComplete`,
`completeOther`); `onboard` runs that trace through `createHandlerContext`.
-/

namespace ConvexOnboardings

/-- Persisted record state: only `completed` and `skipped` are stored
(`schema.ts`: `v.union(v.literal("completed"), v.literal("skipped"))`). -/
inductive RecState where
  | completed
  | skipped
deriving DecidableEq, Repr

/-- Derived status state as reported by `getStatus`. -/
inductive StatusState where
  | pending
  | completed
  | skipped
  | outdated
deriving DecidableEq, Repr

def RecState.toStatus : RecState → StatusState
  | .completed => .completed
  | .skipped => .skipped

/-- One row of the `onboardings` table (`OnboardingRecord` in `server.ts`).
`completedAt` / `skippedAt` are optional epoch-ms timestamps. -/
structure OnboardingRecord where
  entityId : String
  id : String
  version : Nat
  state : RecState
  completedAt : Option Nat
  skippedAt : Option Nat
deriving DecidableEq, Repr

/-- Trace of the handler-context calls a definition handler makes. -/
inductive HandlerAction where
  | complete
  | skip
  | isComplete (otherId : String)
  | completeOther (otherId : String)
deriving DecidableEq, Repr

/-- A caller-supplied onboarding definition (`OnboardingDefinition`).
`condition` is the optional visibility predicate (evaluated with the
entityId; the db read context is abstracted away), `handle` is the
handler modelled as its trace of handler-context calls. -/
structure OnboardingDefinition where
  id : String
  name : String
  description : String
  version : Nat
  required : Bool
  optIn : Bool
  condition : Option (String → Bool)
  handle : List HandlerAction

/-- Derived per-step status (`OnboardingStatus`), computed by `getStatus`. -/
structure OnboardingStatus where
  id : String
  name : String
  description : String
  version : Nat
  required : Bool
  optIn : Bool
  state : StatusState
  completedVersion : Option Nat
  completedAt : Option Nat
  skippedAt : Option Nat
  completed : Bool
  skipped : Bool
  outdated : Bool
  visible : Bool
deriving DecidableEq, Repr

/-- Lifecycle callback firings recorded by the model. -/
inductive Event where
  | onComplete (id : String)
  | onAllRequiredComplete
deriving DecidableEq, Repr

/-- Model of `ConvexOnboardingsConfig`: the registry plus presence of the two optional
lifecycle callbacks (`onComplete?`, `onAllRequiredComplete?`). -/
structure Config where
  onboardings : List OnboardingDefinition
  hasOnComplete : Bool
  hasOnAllRequiredComplete : Bool

/-- Errors thrown by the coordinator: unknown id, or `skip` of a
non-opt-in definition. -/
inductive OnbError where
  | notFound
  | notAllowed
deriving DecidableEq, Repr

/-- Mutation state: the record store plus the log of fired callbacks. -/
structure St where
  db : List OnboardingRecord
  events : List Event
deriving DecidableEq, Repr

/-- The composite key `(entityId, id)` used by the `byEntityIdAndId` index. -/
def matchKey (entityId id : String) (r : OnboardingRecord) : Bool :=
  r.entityId == entityId && r.id == id

/-- Model of `.withIndex("byEntityIdAndId", ...).unique()`: at most one record per
composite key by invariant; modelled as the first match. -/
def findRecord (db : List OnboardingRecord) (entityId id : String) :
    Option OnboardingRecord :=
  db.find? (matchKey entityId id)

/-- Number of records stored for a composite key. -/
def countRecord (db : List OnboardingRecord) (entityId id : String) : Nat :=
  db.countP (matchKey entityId id)

/-- Apply `f` to the first element satisfying `p` (models `db.patch` of the
record returned by the `.unique()` lookup). -/
def updateFirst {α : Type} (p : α → Bool) (f : α → α) : List α → List α
  | [] => []
  | x :: xs => if p x then f x :: xs else x :: updateFirst p f xs

/-- Model of `markOnboarding(ctx, entityId, id, version, state)`: patch the existing
record in place (updating `version`, `state`, and only the timestamp of the
new state) or insert a fresh record with only the relevant timestamp set. -/
def markOnboarding (db : List OnboardingRecord) (entityId id : String)
    (version : Nat) (state : RecState) (now : Nat) : List OnboardingRecord :=
  match findRecord db entityId id with
  | some existing =>
      updateFirst (matchKey entityId id)
        (fun _ =>
          { existing with
            version := version
            state := state
            completedAt :=
              if state = RecState.completed then some now else existing.completedAt
            skippedAt :=
              if state = RecState.skipped then some now else existing.skippedAt })
        db
  | none =>
      db ++ [{ entityId := entityId
               id := id
               version := version
               state := state
               completedAt := if state = RecState.completed then some now else none
               skippedAt := if state = RecState.skipped then some now else none }]

/-- Model of `getStatus(ctx, entityId, onboarding)`: resolve the derived status of one
definition from its record (if any) and its live condition. -/
def getStatus (db : List OnboardingRecord) (entityId : String)
    (o : OnboardingDefinition) : OnboardingStatus :=
  let record := findRecord db entityId o.id
  let condition :=
    match o.condition with
    | some c => c entityId
    | none => true
  match record with
  | none =>
      { id := o.id, name := o.name, description := o.description
        version := o.version, required := o.required, optIn := o.optIn
        state := StatusState.pending
        completedVersion := none
        completedAt := none
        skippedAt := none
        completed := false
        skipped := false
        outdated := false
        visible := condition }
  | some record =>
      let state :=
        if record.version ≠ o.version ∧ record.state = RecState.completed
        then StatusState.outdated
        else record.state.toStatus
      { id := o.id, name := o.name, description := o.description
        version := o.version, required := o.required, optIn := o.optIn
        state := state
        completedVersion := some record.version
        completedAt := record.completedAt
        skippedAt := record.skippedAt
        completed := decide (state = StatusState.completed)
        skipped := decide (state = StatusState.skipped)
        outdated := decide (state = StatusState.outdated)
        visible := condition }

/-- The aggregate predicate shared by `allComplete` and
`handleAllRequiredComplete`: every `required` status is `completed` or not
`visible`. -/
def allRequiredSatisfied (cfg : Config) (db : List OnboardingRecord)
    (entityId : String) : Bool :=
  ((cfg.onboardings.map (getStatus db entityId)).filter (fun s => s.required)).all
    (fun s => s.completed || !s.visible)

/-- Model of `handleAllRequiredComplete`: when the callback is configured and the
aggregate predicate holds, fire `onAllRequiredComplete`. -/
def handleAllRequiredComplete (cfg : Config) (st : St) (entityId : String) : St :=
  if cfg.hasOnAllRequiredComplete then
    if allRequiredSatisfied cfg st.db entityId then
      { st with events := st.events ++ [Event.onAllRequiredComplete] }
    else st
  else st

/-- Handler-context `complete()`: mark completed at the definition's version,
fire `onComplete` when configured, then re-evaluate the aggregate. -/
def ctxComplete (cfg : Config) (st : St) (entityId : String)
    (o : OnboardingDefinition) (now : Nat) : St :=
  let st1 : St :=
    { st with db := markOnboarding st.db entityId o.id o.version RecState.completed now }
  let st2 : St :=
    if cfg.hasOnComplete then
      { st1 with events := st1.events ++ [Event.onComplete o.id] }
    else st1
  handleAllRequiredComplete cfg st2 entityId

/-- Handler-context `skip()`: refuse on non-opt-in definitions, else mark
skipped and re-evaluate the aggregate. -/
def ctxSkip (cfg : Config) (st : St) (entityId : String)
    (o : OnboardingDefinition) (now : Nat) : Except OnbError St :=
  if !o.optIn then Except.error OnbError.notAllowed
  else
    Except.ok
      (handleAllRequiredComplete cfg
        { st with db := markOnboarding st.db entityId o.id o.version RecState.skipped now }
        entityId)

/-- Handler-context `completeOther(otherId)`: look up the other definition
(NotFound when unknown), mark it completed at its own version, fire its
`onComplete`, then re-evaluate the aggregate. -/
def completeOther (cfg : Config) (st : St) (entityId : String)
    (otherId : String) (now : Nat) : Except OnbError St :=
  match cfg.onboardings.find? (fun o => o.id == otherId) with
  | none => Except.error OnbError.notFound
  | some other => Except.ok (ctxComplete cfg st entityId other now)

/-- Handler-context `isComplete(otherId)`: read-only; NotFound when unknown. -/
def ctxIsComplete (cfg : Config) (st : St) (entityId : String)
    (otherId : String) : Except OnbError Bool :=
  match cfg.onboardings.find? (fun o => o.id == otherId) with
  | none => Except.error OnbError.notFound
  | some other => Except.ok (getStatus st.db entityId other).completed

/-- Run one handler-context call from within a handler for definition `o`. -/
def runAction (cfg : Config) (entityId : String) (o : OnboardingDefinition)
    (now : Nat) (st : St) : HandlerAction → Except OnbError St
  | .complete => Except.ok (ctxComplete cfg st entityId o now)
  | .skip => ctxSkip cfg st entityId o now
  | .isComplete otherId =>
      match ctxIsComplete cfg st entityId otherId with
      | Except.error e => Except.error e
      | Except.ok _ => Except.ok st
  | .completeOther otherId => completeOther cfg st entityId otherId now

/-- Run the handler's trace of handler-context calls in order. -/
def runActions (cfg : Config) (entityId : String) (o : OnboardingDefinition)
    (now : Nat) (st : St) : List HandlerAction → Except OnbError St
  | [] => Except.ok st
  | a :: rest =>
      match runAction cfg entityId o now st a with
      | Except.error e => Except.error e
      | Except.ok st1 => runActions cfg entityId o now st1 rest

/-- Model of `onboard(ctx, entityId, id, data)`: look up the definition (NotFound when
unknown) and invoke its handler with a fresh handler context. Completion is
never written by `onboard` itself. -/
def onboard (cfg : Config) (st : St) (entityId id : String) (now : Nat) :
    Except OnbError St :=
  match cfg.onboardings.find? (fun o => o.id == id) with
  | none => Except.error OnbError.notFound
  | some o => runActions cfg entityId o now st o.handle

/-- Model of `list(ctx, entityId)`: all statuses in registry order. -/
def listStatuses (cfg : Config) (db : List OnboardingRecord)
    (entityId : String) : List OnboardingStatus :=
  cfg.onboardings.map (getStatus db entityId)

/-- Model of `status(ctx, entityId, id)`: single status; NotFound when unknown. -/
def statusOf (cfg : Config) (db : List OnboardingRecord)
    (entityId id : String) : Except OnbError OnboardingStatus :=
  match cfg.onboardings.find? (fun o => o.id == id) with
  | none => Except.error OnbError.notFound
  | some o => Except.ok (getStatus db entityId o)

/-- Model of `skip(ctx, entityId, id)`: NotFound when unknown, NotAllowed when not
opt-in, else the handler-context skip. -/
def skip (cfg : Config) (st : St) (entityId id : String) (now : Nat) :
    Except OnbError St :=
  match cfg.onboardings.find? (fun o => o.id == id) with
  | none => Except.error OnbError.notFound
  | some o =>
      if !o.optIn then Except.error OnbError.notAllowed
      else ctxSkip cfg st entityId o now

/-- Model of `reset(ctx, entityId, id)`: delete the record found by the composite-key
lookup when present; no-op otherwise. Fires nothing. -/
def reset (st : St) (entityId id : String) : St :=
  match findRecord st.db entityId id with
  | none => st
  | some _ => { st with db := st.db.eraseP (matchKey entityId id) }

/-- Model of `complete(ctx, entityId, id)`: NotFound when unknown, else the
handler-context complete (bypassing the handler). -/
def complete (cfg : Config) (st : St) (entityId id : String) (now : Nat) :
    Except OnbError St :=
  match cfg.onboardings.find? (fun o => o.id == id) with
  | none => Except.error OnbError.notFound
  | some o => Except.ok (ctxComplete cfg st entityId o now)

/-- Model of `allComplete(ctx, entityId)`: the aggregate predicate. -/
def allComplete (cfg : Config) (db : List OnboardingRecord)
    (entityId : String) : Bool :=
  allRequiredSatisfied cfg db entityId

def C1def : OnboardingDefinition :=
  { id := "a", name := "A", description := "", version := 2, required := true
    optIn := false, condition := none, handle := [] }

def C1rec : OnboardingRecord :=
  { entityId := "e", id := "a", version := 1, state := RecState.skipped
    completedAt := none, skippedAt := some 5 }

def C10def : OnboardingDefinition :=
  { id := "b", name := "B", description := "", version := 3, required := false
    optIn := true, condition := none, handle := [] }

def C10rec : OnboardingRecord :=
  { entityId := "e", id := "b", version := 3, state := RecState.skipped
    completedAt := none, skippedAt := some 7 }

def C2defA : OnboardingDefinition :=
  { id := "a", name := "", description := "", version := 1, required := true
    optIn := false, condition := none, handle := [] }

def C2defB : OnboardingDefinition :=
  { id := "b", name := "", description := "", version := 1, required := true
    optIn := false, condition := none, handle := [] }

def C2defC : OnboardingDefinition :=
  { id := "c", name := "", description := "", version := 1, required := true
    optIn := false, condition := some (fun _ => false), handle := [] }

def C2cfg : Config :=
  { onboardings := [C2defA, C2defB, C2defC]
    hasOnComplete := false, hasOnAllRequiredComplete := false }

def C2db : List OnboardingRecord :=
  [{ entityId := "e", id := "a", version := 1, state := RecState.completed
     completedAt := some 1, skippedAt := none },
   { entityId := "e", id := "b", version := 1, state := RecState.completed
     completedAt := some 2, skippedAt := none }]

def C3defA : OnboardingDefinition :=
  { id := "a", name := "", description := "", version := 1, required := true
    optIn := false, condition := none, handle := [] }

def C3defB : OnboardingDefinition :=
  { id := "b", name := "", description := "", version := 1, required := true
    optIn := true, condition := none, handle := [] }

def C3cfg : Config :=
  { onboardings := [C3defA, C3defB]
    hasOnComplete := false, hasOnAllRequiredComplete := false }

/-- Store after `complete(a)` at time 100, starting from an empty store. -/
def C3st1 : St :=
  { db := [{ entityId := "e", id := "a", version := 1
             state := RecState.completed, completedAt := some 100
             skippedAt := none }]
    events := [] }

/-- Store after additionally `skip(b)` at time 200. -/
def C3st2 : St :=
  { db := [{ entityId := "e", id := "a", version := 1
             state := RecState.completed, completedAt := some 100
             skippedAt := none },
           { entityId := "e", id := "b", version := 1
             state := RecState.skipped, completedAt := none
             skippedAt := some 200 }]
    events := [] }

def C4rec : OnboardingRecord :=
  { entityId := "e", id := "x", version := 1, state := RecState.completed
    completedAt := some 10, skippedAt := none }

def C7def : OnboardingDefinition :=
  { id := "m", name := "", description := "", version := 1, required := true
    optIn := false, condition := none, handle := [] }

def C7cfg : Config :=
  { onboardings := [C7def], hasOnComplete := true
    hasOnAllRequiredComplete := true }

def C9rec : OnboardingRecord :=
  { entityId := "e", id := "r", version := 1, state := RecState.completed
    completedAt := some 3, skippedAt := none }

def C9st : St := { db := [C9rec], events := [] }

def C9def : OnboardingDefinition :=
  { id := "r", name := "", description := "", version := 1, required := true
    optIn := false, condition := none, handle := [] }

def C6defD : OnboardingDefinition :=
  { id := "d", name := "", description := "", version := 1, required := false
    optIn := false, condition := none, handle := [HandlerAction.completeOther "x"] }

def C6defX : OnboardingDefinition :=
  { id := "x", name := "", description := "", version := 1, required := false
    optIn := false, condition := none, handle := [] }

def C6cfg : Config :=
  { onboardings := [C6defD, C6defX], hasOnComplete := true
    hasOnAllRequiredComplete := false }

def C6st : St :=
  { db := [{ entityId := "e", id := "d", version := 1
             state := RecState.completed, completedAt := some 1
             skippedAt := none }]
    events := [] }

def C6stAfter : St :=
  { db := [{ entityId := "e", id := "d", version := 1
             state := RecState.completed, completedAt := some 1
             skippedAt := none },
           { entityId := "e", id := "x", version := 1
             state := RecState.completed, completedAt := some 50
             skippedAt := none }]
    events := [Event.onComplete "x"] }

/-- Whether a handler-context call writes the record store. -/
def HandlerAction.isWrite : HandlerAction → Bool
  | .complete => true
  | .skip => true
  | .completeOther _ => true
  | .isComplete _ => false

def C5defW : OnboardingDefinition :=
  { id := "w", name := "", description := "", version := 1, required := false
    optIn := false, condition := none, handle := [] }

def C5defMain : OnboardingDefinition :=
  { id := "m", name := "", description := "", version := 1, required := false
    optIn := false, condition := none
    handle := [HandlerAction.isComplete "w"] }

def C5cfg : Config :=
  { onboardings := [C5defMain, C5defW], hasOnComplete := true
    hasOnAllRequiredComplete := true }

def C5recW : OnboardingRecord :=
  { entityId := "e", id := "w", version := 1, state := RecState.completed
    completedAt := some 2, skippedAt := none }

def C5st : St := { db := [C5recW], events := [] }

def C5stOut : St := { db := [C5recW], events := [] }

def C8defZ : OnboardingDefinition :=
  { id := "z", name := "", description := "", version := 1, required := true
    optIn := false, condition := none, handle := [] }

def C8cfg : Config :=
  { onboardings := [C8defZ], hasOnComplete := false
    hasOnAllRequiredComplete := false }

def C8st : St := { db := [], events := [] }

/-! Section: List-level helper lemmas -/

theorem length_updateFirst {α : Type} (p : α → Bool) (f : α → α) (l : List α) :
    (updateFirst p f l).length = l.length := by
  induction l with
  | nil => rfl
  | cons a t ih =>
    by_cases hp : p a
    · simp [updateFirst, hp]
    · simp [updateFirst, hp, ih]

theorem find?_updateFirst {α : Type} (p : α → Bool) (f : α → α) (l : List α)
    (x : α) (hx : l.find? p = some x) (hf : p (f x) = true) :
    (updateFirst p f l).find? p = some (f x) := by
  induction l with
  | nil => simp at hx
  | cons a t ih =>
    by_cases hp : p a
    · rw [List.find?_cons_of_pos _ hp] at hx
      cases hx
      simp [updateFirst, hp, List.find?_cons_of_pos _ hf]
    · rw [List.find?_cons_of_neg _ hp] at hx
      have hstep : updateFirst p f (a :: t) = a :: updateFirst p f t := by
        simp [updateFirst, hp]
      rw [hstep, List.find?_cons_of_neg _ hp]
      exact ih hx

theorem find?_updateFirst_frame {α : Type} (p q : α → Bool) (f : α → α)
    (l : List α) (h : ∀ a, p a = true → q a = false ∧ q (f a) = false) :
    (updateFirst p f l).find? q = l.find? q := by
  induction l with
  | nil => rfl
  | cons a t ih =>
    by_cases hp : p a
    · have ha := h a hp
      simp only [updateFirst, hp, if_true]
      rw [List.find?_cons_of_neg _ (by simp [ha.2]),
        List.find?_cons_of_neg _ (by simp [ha.1])]
    · have hstep : updateFirst p f (a :: t) = a :: updateFirst p f t := by
        simp [updateFirst, hp]
      rw [hstep]
      by_cases hq : q a
      · rw [List.find?_cons_of_pos _ hq, List.find?_cons_of_pos _ hq]
      · rw [List.find?_cons_of_neg _ hq, List.find?_cons_of_neg _ hq]
        exact ih

theorem countP_updateFirst {α : Type} (p q : α → Bool) (f : α → α)
    (l : List α) (h : ∀ a, p a = true → q (f a) = q a) :
    (updateFirst p f l).countP q = l.countP q := by
  induction l with
  | nil => rfl
  | cons a t ih =>
    by_cases hp : p a
    · simp [updateFirst, hp, List.countP_cons, h a hp]
    · simp [updateFirst, hp, List.countP_cons, ih]

theorem find?_append_none {α : Type} (p : α → Bool) (l₁ l₂ : List α)
    (h : l₁.find? p = none) : (l₁ ++ l₂).find? p = l₂.find? p := by
  induction l₁ with
  | nil => rfl
  | cons a t ih =>
    by_cases hp : p a
    · rw [List.find?_cons_of_pos _ hp] at h
      cases h
    · rw [List.find?_cons_of_neg _ hp] at h
      rw [List.cons_append, List.find?_cons_of_neg _ hp]
      exact ih h

theorem find?_append_frame {α : Type} (p : α → Bool) (l : List α) (x : α)
    (hx : p x = false) : (l ++ [x]).find? p = l.find? p := by
  induction l with
  | nil => simp [hx]
  | cons a t ih =>
    by_cases hp : p a
    · rw [List.cons_append, List.find?_cons_of_pos _ hp,
        List.find?_cons_of_pos _ hp]
    · rw [List.cons_append, List.find?_cons_of_neg _ hp,
        List.find?_cons_of_neg _ hp]
      exact ih

theorem countP_of_find?_eq_none {α : Type} (p : α → Bool) (l : List α)
    (h : l.find? p = none) : l.countP p = 0 := by
  rw [List.countP_eq_zero]
  intro a ha
  rw [List.find?_eq_none] at h
  exact h a ha

theorem countP_pos_of_find?_eq_some {α : Type} (p : α → Bool) (l : List α)
    (x : α) (h : l.find? p = some x) : 1 ≤ l.countP p := by
  rw [Nat.succ_le, List.countP_pos_iff]
  exact ⟨x, List.mem_of_find?_eq_some h, List.find?_some h⟩

theorem find?_eraseP_self {α : Type} (p : α → Bool) (l : List α)
    (h : l.countP p ≤ 1) : (l.eraseP p).find? p = none := by
  induction l with
  | nil => rfl
  | cons a t ih =>
    by_cases hp : p a
    · simp only [List.eraseP_cons, hp, cond_true]
      rw [List.countP_cons, hp, if_pos rfl] at h
      rw [List.find?_eq_none]
      intro x hx hpx
      have : 1 ≤ t.countP p := by
        rw [Nat.succ_le, List.countP_pos_iff]
        exact ⟨x, hx, hpx⟩
      omega
    · simp only [List.eraseP_cons, hp, cond_false]
      rw [List.countP_cons] at h
      simp only [hp, if_false] at h
      rw [List.find?_cons_of_neg _ hp]
      exact ih (by omega)

theorem find?_eraseP_frame {α : Type} (p q : α → Bool) (l : List α)
    (h : ∀ a, p a = true → q a = false) :
    (l.eraseP p).find? q = l.find? q := by
  induction l with
  | nil => rfl
  | cons a t ih =>
    by_cases hp : p a
    · simp only [List.eraseP_cons, hp, cond_true]
      rw [List.find?_cons_of_neg _ (by simp [h a hp])]
    · simp only [List.eraseP_cons, hp, cond_false]
      by_cases hq : q a
      · rw [List.find?_cons_of_pos _ hq, List.find?_cons_of_pos _ hq]
      · rw [List.find?_cons_of_neg _ hq, List.find?_cons_of_neg _ hq]
        exact ih

/-! Section: Status-resolver facts -/

theorem getStatus_required (db : List OnboardingRecord) (entityId : String)
    (o : OnboardingDefinition) : (getStatus db entityId o).required = o.required := by
  cases h : findRecord db entityId o.id <;> simp [getStatus, h]

/-- C1: the `state` returned by `getStatus` is derived as: no record →
`pending` (with `completedVersion = null`); a `completed` record whose
version differs from the definition's → `outdated`; a `completed` record at
the current version → `completed`; a `skipped` record → `skipped` verbatim,
regardless of any version mismatch. -/
theorem C1_status_state_derivation (db : List OnboardingRecord)
    (entityId : String) (o : OnboardingDefinition) :
    (findRecord db entityId o.id = none →
       (getStatus db entityId o).state = StatusState.pending ∧
       (getStatus db entityId o).completedVersion = none) ∧
    (∀ r, findRecord db entityId o.id = some r →
       (r.state = RecState.completed → r.version ≠ o.version →
          (getStatus db entityId o).state = StatusState.outdated) ∧
       (r.state = RecState.completed → r.version = o.version →
          (getStatus db entityId o).state = StatusState.completed) ∧
       (r.state = RecState.skipped →
          (getStatus db entityId o).state = StatusState.skipped)) := by
  refine ⟨fun h => by simp [getStatus, h], fun r h => ⟨?_, ?_, ?_⟩⟩
  · intro hc hv
    simp [getStatus, h, hc, hv]
  · intro hc hv
    simp [getStatus, h, hc, hv, RecState.toStatus]
  · intro hs
    simp [getStatus, h, hs, RecState.toStatus]

/-- Witness for C1: with no record the state is `pending`; a skipped record
at a stale version (1 vs 2) is still reported `skipped`, not `outdated`. -/
theorem C1_status_state_derivation_witness :
    (getStatus [] "e" C1def).state = StatusState.pending ∧
    (getStatus [C1rec] "e" C1def).state = StatusState.skipped := by
  constructor
  · exact ((C1_status_state_derivation [] "e" C1def).1 (by decide)).1
  · exact ((C1_status_state_derivation [C1rec] "e" C1def).2 C1rec (by decide)).2.2
      (by decide)

/-- C10: whenever a record exists for the composite key, `completedVersion`
is the record's stored version verbatim, even for a `skipped` record. -/
theorem C10_completedVersion_from_record (db : List OnboardingRecord)
    (entityId : String) (o : OnboardingDefinition) (r : OnboardingRecord)
    (h : findRecord db entityId o.id = some r) :
    (getStatus db entityId o).completedVersion = some r.version := by
  simp [getStatus, h]

/-- Witness for C10: a step that was only ever skipped still reports a
non-null `completedVersion`. -/
theorem C10_completedVersion_from_record_witness :
    (getStatus [C10rec] "e" C10def).completedVersion = some 3 := by
  have h := C10_completedVersion_from_record [C10rec] "e" C10def C10rec (by decide)
  simpa [C10rec] using h

/-! Section: Aggregate facts -/

/-- C2: `allComplete` is true exactly when every registered definition with
`required = true` has a status that is `completed` or not `visible`; and in
the concrete three-required-definitions scenario (one hidden by its
condition, the other two completed) it returns true. -/
theorem C2_allComplete_characterisation (cfg : Config)
    (db : List OnboardingRecord) (entityId : String) :
    (allComplete cfg db entityId = true ↔
      ∀ o ∈ cfg.onboardings, o.required = true →
        (getStatus db entityId o).completed = true ∨
        (getStatus db entityId o).visible = false) ∧
    allComplete C2cfg C2db "e" = true := by
  constructor
  · rw [allComplete, allRequiredSatisfied, List.all_eq_true]
    constructor
    · intro h o ho hreq
      have hmem : getStatus db entityId o ∈
          (cfg.onboardings.map (getStatus db entityId)).filter
            (fun s => s.required) := by
        rw [List.mem_filter]
        refine ⟨List.mem_map_of_mem _ ho, ?_⟩
        rw [getStatus_required]
        exact hreq
      have := h _ hmem
      simpa using this
    · intro h s hs
      rw [List.mem_filter] at hs
      obtain ⟨hmem, hreq⟩ := hs
      rw [List.mem_map] at hmem
      obtain ⟨o, ho, rfl⟩ := hmem
      rw [getStatus_required] at hreq
      rcases h o ho hreq with hc | hv
      · simp [hc]
      · simp [hv]
  · decide

/-- Witness for C2: the characterisation applied to the concrete scenario
shows the required hidden step is completed or not visible. -/
theorem C2_allComplete_characterisation_witness :
    (getStatus C2db "e" C2defC).completed = true ∨
    (getStatus C2db "e" C2defC).visible = false := by
  exact (C2_allComplete_characterisation C2cfg C2db "e").1.mp
    (C2_allComplete_characterisation C2cfg C2db "e").2
    C2defC (by simp [C2cfg]) (by decide)

/-! Section: End-to-end scenario (C3) -/

/-- Counterexample to C3: with registry `[a (required, not opt-in), b
(required, opt-in)]`, after `complete(a)` then `skip(b)` the aggregate is
still `false`, not `true` as the claim asserts: the aggregate predicate
counts only `completed || !visible`, and a skipped required step is neither. -/
theorem C3_counterexample :
    complete C3cfg { db := [], events := [] } "e" "a" 100 = Except.ok C3st1 ∧
    skip C3cfg C3st1 "e" "b" 200 = Except.ok C3st2 ∧
    ¬ allComplete C3cfg C3st2.db "e" = true := by
  refine ⟨rfl, rfl, by decide⟩

/-- C3 (amended): initial `list` reports both steps `pending`; after
`complete(a)`, `allComplete` is false; after additionally `skip(b)`,
`allComplete` is still false — skipping a required-but-opt-in step does not
satisfy the aggregate. -/
theorem C3_end_to_end_amended :
    (listStatuses C3cfg [] "e").map OnboardingStatus.state =
      [StatusState.pending, StatusState.pending] ∧
    complete C3cfg { db := [], events := [] } "e" "a" 100 = Except.ok C3st1 ∧
    allComplete C3cfg C3st1.db "e" = false ∧
    skip C3cfg C3st1 "e" "b" 200 = Except.ok C3st2 ∧
    allComplete C3cfg C3st2.db "e" = false := by
  refine ⟨by decide, rfl, by decide, rfl, by decide⟩

/-! Section: Record-marking facts -/

theorem matchKey_eq_true {e i : String} {r : OnboardingRecord} :
    matchKey e i r = true ↔ r.entityId = e ∧ r.id = i := by
  simp [matchKey]

theorem matchKey_eq_false_of_ne {e i e' i' : String} {r : OnboardingRecord}
    (hre : r.entityId = e) (hri : r.id = i) (h : e' ≠ e ∨ i' ≠ i) :
    matchKey e' i' r = false := by
  rw [Bool.eq_false_iff]
  intro hcontra
  rw [matchKey_eq_true] at hcontra
  rcases h with hh | hh
  · exact hh (hcontra.1.symm.trans hre)
  · exact hh (hcontra.2.symm.trans hri)

theorem findRecord_mark_none (db : List OnboardingRecord) (e i : String)
    (v : Nat) (s : RecState) (t : Nat) (hf : findRecord db e i = none) :
    markOnboarding db e i v s t = db ++
      [{ entityId := e, id := i, version := v, state := s
         completedAt := if s = RecState.completed then some t else none
         skippedAt := if s = RecState.skipped then some t else none }] := by
  simp only [markOnboarding, hf]

theorem findRecord_mark_none_self (db : List OnboardingRecord) (e i : String)
    (v : Nat) (s : RecState) (t : Nat) (hf : findRecord db e i = none) :
    findRecord (markOnboarding db e i v s t) e i =
      some { entityId := e, id := i, version := v, state := s
             completedAt := if s = RecState.completed then some t else none
             skippedAt := if s = RecState.skipped then some t else none } := by
  rw [findRecord_mark_none db e i v s t hf]
  unfold findRecord at hf ⊢
  rw [find?_append_none _ _ _ hf]
  simp [List.find?, matchKey]

theorem findRecord_mark_found (db : List OnboardingRecord) (e i : String)
    (v : Nat) (s : RecState) (t : Nat) (ex : OnboardingRecord)
    (hf : findRecord db e i = some ex) :
    findRecord (markOnboarding db e i v s t) e i =
      some { ex with
             version := v
             state := s
             completedAt := if s = RecState.completed then some t else ex.completedAt
             skippedAt := if s = RecState.skipped then some t else ex.skippedAt } := by
  obtain ⟨he, hi⟩ := matchKey_eq_true.mp (List.find?_some hf)
  simp only [markOnboarding, hf]
  simp only [findRecord] at hf ⊢
  apply find?_updateFirst _ _ _ ex hf
  exact matchKey_eq_true.mpr ⟨he, hi⟩

theorem length_mark_found (db : List OnboardingRecord) (e i : String)
    (v : Nat) (s : RecState) (t : Nat) (ex : OnboardingRecord)
    (hf : findRecord db e i = some ex) :
    (markOnboarding db e i v s t).length = db.length := by
  simp only [markOnboarding, hf]
  exact length_updateFirst _ _ _

theorem findRecord_mark_frame (db : List OnboardingRecord) (e i : String)
    (v : Nat) (s : RecState) (t : Nat) (e' i' : String)
    (h : e' ≠ e ∨ i' ≠ i) :
    findRecord (markOnboarding db e i v s t) e' i' = findRecord db e' i' := by
  cases hf : findRecord db e i with
  | none =>
    rw [findRecord_mark_none db e i v s t hf]
    unfold findRecord
    exact find?_append_frame _ _ _ (matchKey_eq_false_of_ne rfl rfl h)
  | some ex =>
    obtain ⟨hexe, hexi⟩ := matchKey_eq_true.mp (List.find?_some hf)
    simp only [markOnboarding, hf]
    simp only [findRecord]
    apply find?_updateFirst_frame
    intro a ha
    obtain ⟨hae, hai⟩ := matchKey_eq_true.mp ha
    exact ⟨matchKey_eq_false_of_ne hae hai h,
      matchKey_eq_false_of_ne hexe hexi h⟩

theorem countRecord_mark_found (db : List OnboardingRecord) (e i : String)
    (v : Nat) (s : RecState) (t : Nat) (ex : OnboardingRecord)
    (hf : findRecord db e i = some ex) :
    countRecord (markOnboarding db e i v s t) e i = countRecord db e i := by
  obtain ⟨he, hi⟩ := matchKey_eq_true.mp (List.find?_some hf)
  simp only [markOnboarding, hf, countRecord]
  apply countP_updateFirst
  intro a ha
  rw [ha]
  exact matchKey_eq_true.mpr ⟨he, hi⟩

theorem countRecord_mark_none (db : List OnboardingRecord) (e i : String)
    (v : Nat) (s : RecState) (t : Nat) (hf : findRecord db e i = none) :
    countRecord (markOnboarding db e i v s t) e i = 1 := by
  rw [findRecord_mark_none db e i v s t hf]
  unfold countRecord
  rw [List.countP_append, countP_of_find?_eq_none _ _ hf]
  simp [matchKey]

/-- C4: the shared record-marking write. When no record exists for the
composite key, it inserts exactly one new record with only the relevant
timestamp set; when one exists it patches it in place (same store length, so
no second record is ever created), updating `version`, `state`, and only the
new state's timestamp while the other timestamp is preserved; records under
any other composite key are untouched. -/
theorem C4_markOnboarding_write (db : List OnboardingRecord) (e i : String)
    (v : Nat) (s : RecState) (now : Nat) :
    (findRecord db e i = none →
       markOnboarding db e i v s now = db ++
         [{ entityId := e, id := i, version := v, state := s
            completedAt := if s = RecState.completed then some now else none
            skippedAt := if s = RecState.skipped then some now else none }]) ∧
    (∀ ex, findRecord db e i = some ex →
       (markOnboarding db e i v s now).length = db.length ∧
       findRecord (markOnboarding db e i v s now) e i =
         some { ex with
                version := v
                state := s
                completedAt :=
                  if s = RecState.completed then some now else ex.completedAt
                skippedAt :=
                  if s = RecState.skipped then some now else ex.skippedAt }) ∧
    (∀ e' i', e' ≠ e ∨ i' ≠ i →
       findRecord (markOnboarding db e i v s now) e' i' = findRecord db e' i') :=
  ⟨fun hf => findRecord_mark_none db e i v s now hf,
   fun ex hf => ⟨length_mark_found db e i v s now ex hf,
     findRecord_mark_found db e i v s now ex hf⟩,
   fun e' i' h => findRecord_mark_frame db e i v s now e' i' h⟩

/-- Witness for C4: re-marking a completed record as skipped preserves its
`completedAt` while setting `skippedAt` to the new timestamp. -/
theorem C4_markOnboarding_write_witness :
    findRecord (markOnboarding [C4rec] "e" "x" 2 RecState.skipped 20) "e" "x" =
      some { entityId := "e", id := "x", version := 2
             state := RecState.skipped, completedAt := some 10
             skippedAt := some 20 } := by
  have h :=
    ((C4_markOnboarding_write [C4rec] "e" "x" 2 RecState.skipped 20).2.1 C4rec
      (by decide)).2
  simpa [C4rec] using h

/-! Section: Skip guard (C7) -/

/-- C7: `skip` on a definition with `optIn = false` fails with `NotAllowed`.
The guard is checked before `markOnboarding` and before any callback, and an
errored call carries no successor state: the record store and the event log
are exactly as before the call. -/
theorem C7_skip_not_allowed (cfg : Config) (st : St) (entityId id : String)
    (now : Nat) (o : OnboardingDefinition)
    (hfind : cfg.onboardings.find? (fun d => d.id == id) = some o)
    (hopt : o.optIn = false) :
    skip cfg st entityId id now = Except.error OnbError.notAllowed := by
  simp [skip, hfind, hopt]

/-- Witness for C7: skipping the mandatory step `m` errors. -/
theorem C7_skip_not_allowed_witness :
    skip C7cfg { db := [], events := [] } "e" "m" 5 =
      Except.error OnbError.notAllowed :=
  C7_skip_not_allowed C7cfg { db := [], events := [] } "e" "m" 5 C7def rfl rfl

/-! Section: Reset (C9) -/

/-- C9: `reset` never touches the event log (no lifecycle callback, no
aggregate re-evaluation); it is a no-op when no record exists; when the store
holds at most one record for the composite key, the record is gone
afterwards; records under other composite keys are untouched; and an
immediate status read returns `pending` with all derived fields
nulled/false. -/
theorem C9_reset_behaviour (st : St) (entityId id : String) :
    (reset st entityId id).events = st.events ∧
    (findRecord st.db entityId id = none → reset st entityId id = st) ∧
    (countRecord st.db entityId id ≤ 1 →
       findRecord (reset st entityId id).db entityId id = none) ∧
    (∀ e' i', e' ≠ entityId ∨ i' ≠ id →
       findRecord (reset st entityId id).db e' i' = findRecord st.db e' i') ∧
    (∀ o : OnboardingDefinition, o.id = id →
       countRecord st.db entityId id ≤ 1 →
       (getStatus (reset st entityId id).db entityId o).state =
         StatusState.pending ∧
       (getStatus (reset st entityId id).db entityId o).completedVersion = none ∧
       (getStatus (reset st entityId id).db entityId o).completedAt = none ∧
       (getStatus (reset st entityId id).db entityId o).skippedAt = none ∧
       (getStatus (reset st entityId id).db entityId o).completed = false ∧
       (getStatus (reset st entityId id).db entityId o).skipped = false ∧
       (getStatus (reset st entityId id).db entityId o).outdated = false) := by
  have hgone : countRecord st.db entityId id ≤ 1 →
      findRecord (reset st entityId id).db entityId id = none := by
    intro hc
    cases h : findRecord st.db entityId id with
    | none => simp [reset, h]
    | some r =>
      simp only [reset, h]
      exact find?_eraseP_self _ _ hc
  refine ⟨?_, ?_, hgone, ?_, ?_⟩
  · cases h : findRecord st.db entityId id <;> simp [reset, h]
  · intro h
    simp [reset, h]
  · intro e' i' hne
    cases h : findRecord st.db entityId id with
    | none => simp [reset, h]
    | some r =>
      simp only [reset, h]
      simp only [findRecord]
      apply find?_eraseP_frame
      intro a ha
      obtain ⟨hae, hai⟩ := matchKey_eq_true.mp ha
      exact matchKey_eq_false_of_ne hae hai hne
  · intro o ho hc
    have hn : findRecord (reset st entityId id).db entityId o.id = none := by
      rw [ho]
      exact hgone hc
    simp [getStatus, hn]

/-- Witness for C9: resetting the only record for `("e","r")` leaves no
events, removes the record, and the next status read is `pending`. -/
theorem C9_reset_behaviour_witness :
    (reset C9st "e" "r").events = C9st.events ∧
    findRecord (reset C9st "e" "r").db "e" "r" = none ∧
    (getStatus (reset C9st "e" "r").db "e" C9def).state = StatusState.pending := by
  refine ⟨(C9_reset_behaviour C9st "e" "r").1, ?_, ?_⟩
  · exact (C9_reset_behaviour C9st "e" "r").2.2.1 (by decide)
  · exact ((C9_reset_behaviour C9st "e" "r").2.2.2.2 C9def rfl (by decide)).1

/-! Section: Completion path lemmas -/

theorem handleAllRequiredComplete_db (cfg : Config) (st : St) (e : String) :
    (handleAllRequiredComplete cfg st e).db = st.db := by
  unfold handleAllRequiredComplete
  split_ifs <;> rfl

theorem handleAllRequiredComplete_events_mono (cfg : Config) (st : St)
    (e : String) (x : Event) (hx : x ∈ st.events) :
    x ∈ (handleAllRequiredComplete cfg st e).events := by
  unfold handleAllRequiredComplete
  split_ifs <;> simp [hx]

theorem handleAllRequiredComplete_fires (cfg : Config) (st : St) (e : String)
    (h1 : cfg.hasOnAllRequiredComplete = true)
    (h2 : allRequiredSatisfied cfg st.db e = true) :
    (handleAllRequiredComplete cfg st e).events =
      st.events ++ [Event.onAllRequiredComplete] := by
  simp [handleAllRequiredComplete, h1, h2]

theorem ctxComplete_db (cfg : Config) (st : St) (e : String)
    (o : OnboardingDefinition) (now : Nat) :
    (ctxComplete cfg st e o now).db =
      markOnboarding st.db e o.id o.version RecState.completed now := by
  unfold ctxComplete
  rw [handleAllRequiredComplete_db]
  split_ifs <;> rfl

theorem ctxComplete_onComplete_mem (cfg : Config) (st : St) (e : String)
    (o : OnboardingDefinition) (now : Nat) (h : cfg.hasOnComplete = true) :
    Event.onComplete o.id ∈ (ctxComplete cfg st e o now).events := by
  unfold ctxComplete
  apply handleAllRequiredComplete_events_mono
  simp [h]

theorem ctxComplete_allReq_mem (cfg : Config) (st : St) (e : String)
    (o : OnboardingDefinition) (now : Nat)
    (h1 : cfg.hasOnAllRequiredComplete = true)
    (h2 : allRequiredSatisfied cfg
      (markOnboarding st.db e o.id o.version RecState.completed now) e = true) :
    Event.onAllRequiredComplete ∈ (ctxComplete cfg st e o now).events := by
  unfold ctxComplete
  split_ifs with hoc
  · rw [handleAllRequiredComplete_fires _ _ _ h1 (by exact h2)]
    simp
  · rw [handleAllRequiredComplete_fires _ _ _ h1 (by exact h2)]
    simp

/-! Section: completeOther (C6) -/

/-- C6: `completeOther(otherId)` fails with `NotFound` when `otherId` matches
no registered definition; otherwise it succeeds, the store effect is exactly
`markOnboarding` of the *other* definition at its own version with state
`completed`, the other definition's `onComplete` fires (when configured), the
aggregate is re-evaluated (firing `onAllRequiredComplete` when configured and
satisfied), and the record of any definition with a different id — in
particular the invoking one — is unchanged. -/
theorem C6_completeOther_behaviour (cfg : Config) (st : St)
    (entityId otherId : String) (now : Nat) :
    (cfg.onboardings.find? (fun o => o.id == otherId) = none →
       completeOther cfg st entityId otherId now =
         Except.error OnbError.notFound) ∧
    (∀ other, cfg.onboardings.find? (fun o => o.id == otherId) = some other →
       ∃ st', completeOther cfg st entityId otherId now = Except.ok st' ∧
         st'.db = markOnboarding st.db entityId other.id other.version
           RecState.completed now ∧
         (cfg.hasOnComplete = true → Event.onComplete other.id ∈ st'.events) ∧
         (cfg.hasOnAllRequiredComplete = true →
            allRequiredSatisfied cfg st'.db entityId = true →
            Event.onAllRequiredComplete ∈ st'.events) ∧
         (∀ d : OnboardingDefinition, d.id ≠ otherId →
            findRecord st'.db entityId d.id =
              findRecord st.db entityId d.id)) := by
  constructor
  · intro h
    simp [completeOther, h]
  · intro other h
    have hid : other.id = otherId := by simpa using List.find?_some h
    refine ⟨ctxComplete cfg st entityId other now, by simp [completeOther, h],
      ctxComplete_db cfg st entityId other now, ?_, ?_, ?_⟩
    · intro hoc
      exact ctxComplete_onComplete_mem cfg st entityId other now hoc
    · intro h1 h2
      rw [ctxComplete_db] at h2
      exact ctxComplete_allReq_mem cfg st entityId other now h1 h2
    · intro d hd
      rw [ctxComplete_db]
      exact findRecord_mark_frame st.db entityId other.id other.version
        RecState.completed now entityId d.id (Or.inr (hid ▸ hd))

/-- Witness for C6: completing `x` from inside `d`'s handler context marks
`x` completed, fires `onComplete("x")`, and leaves `d`'s record unchanged. -/
theorem C6_completeOther_behaviour_witness :
    completeOther C6cfg C6st "e" "x" 50 = Except.ok C6stAfter ∧
    Event.onComplete "x" ∈ C6stAfter.events ∧
    findRecord C6stAfter.db "e" "d" = findRecord C6st.db "e" "d" := by
  obtain ⟨st', hok, hdb, hoc, hall, hframe⟩ :=
    (C6_completeOther_behaviour C6cfg C6st "e" "x" 50).2 C6defX rfl
  have h2 : completeOther C6cfg C6st "e" "x" 50 = Except.ok C6stAfter := rfl
  injection hok.symm.trans h2 with hst
  subst hst
  exact ⟨hok, hoc rfl, hframe C6defD (by decide)⟩

/-! Section: onboard never completes implicitly (C5) -/

theorem runActions_readonly (cfg : Config) (e : String)
    (o : OnboardingDefinition) (now : Nat) :
    ∀ (acts : List HandlerAction) (st st' : St),
      (∀ a ∈ acts, a.isWrite = false) →
      runActions cfg e o now st acts = Except.ok st' → st' = st := by
  intro acts
  induction acts with
  | nil =>
    intro st st' _ h
    simp only [runActions] at h
    exact (Except.ok.inj h).symm
  | cons a rest ih =>
    intro st st' hro h
    have ha : a.isWrite = false := hro a (List.mem_cons_self a rest)
    cases a with
    | complete => simp [HandlerAction.isWrite] at ha
    | skip => simp [HandlerAction.isWrite] at ha
    | completeOther oid => simp [HandlerAction.isWrite] at ha
    | isComplete oid =>
      simp only [runActions, runAction, ctxIsComplete] at h
      cases hfind : cfg.onboardings.find? (fun d => d.id == oid) with
      | none =>
        simp only [hfind] at h
        exact Except.noConfusion h
      | some other =>
        simp only [hfind] at h
        exact ih st st' (fun b hb => hro b (List.mem_cons_of_mem _ hb)) h

/-- C5: `onboard` invokes the matched definition's handler but never writes a
completion record itself: when the handler's trace contains no
`complete`/`skip`/`completeOther` call, a successful `onboard` leaves the
record store (and the event log) unchanged. -/
theorem C5_onboard_no_implicit_completion (cfg : Config) (st : St)
    (entityId id : String) (now : Nat) (o : OnboardingDefinition)
    (hfind : cfg.onboardings.find? (fun d => d.id == id) = some o)
    (hro : ∀ a ∈ o.handle, a.isWrite = false) :
    ∀ st', onboard cfg st entityId id now = Except.ok st' →
      st'.db = st.db ∧ st'.events = st.events := by
  intro st' h
  simp only [onboard, hfind] at h
  have heq := runActions_readonly cfg entityId o now o.handle st st' hro h
  rw [heq]
  exact ⟨rfl, rfl⟩

/-- Witness for C5: a handler whose trace only queries `isComplete` leaves
the store and event log unchanged after a successful `onboard`. -/
theorem C5_onboard_no_implicit_completion_witness :
    C5stOut.db = C5st.db ∧ C5stOut.events = C5st.events :=
  C5_onboard_no_implicit_completion C5cfg C5st "e" "m" 9 C5defMain rfl
    (by
      intro a ha
      simp [C5defMain] at ha
      subst ha
      rfl)
    C5stOut rfl

/-! Section: complete idempotence (C8) -/

theorem mark_completed_self (db : List OnboardingRecord) (e i : String)
    (v t : Nat) (hcount : countRecord db e i ≤ 1) :
    countRecord (markOnboarding db e i v RecState.completed t) e i = 1 ∧
    ∃ r, findRecord (markOnboarding db e i v RecState.completed t) e i = some r ∧
      r.state = RecState.completed ∧ r.completedAt = some t := by
  cases hf : findRecord db e i with
  | none =>
    refine ⟨countRecord_mark_none db e i v RecState.completed t hf, ?_⟩
    exact ⟨_, findRecord_mark_none_self db e i v RecState.completed t hf, rfl,
      by simp⟩
  | some ex =>
    have h1 : 1 ≤ countRecord db e i := countP_pos_of_find?_eq_some _ _ ex hf
    have heq : countRecord db e i = 1 := le_antisymm hcount h1
    constructor
    · rw [countRecord_mark_found db e i v RecState.completed t ex hf]
      exact heq
    · exact ⟨_, findRecord_mark_found db e i v RecState.completed t ex hf, rfl,
        by simp⟩

/-- C8: `complete` twice in succession for the same `(entityId, id)` succeeds
both times and yields a single record for the key, with state `completed` and
`completedAt` equal to the second call's timestamp. -/
theorem C8_complete_idempotent (cfg : Config) (st : St) (entityId id : String)
    (t1 t2 : Nat) (o : OnboardingDefinition)
    (hfind : cfg.onboardings.find? (fun d => d.id == id) = some o)
    (hcount : countRecord st.db entityId id ≤ 1) :
    ∃ st1 st2,
      complete cfg st entityId id t1 = Except.ok st1 ∧
      complete cfg st1 entityId id t2 = Except.ok st2 ∧
      countRecord st2.db entityId id = 1 ∧
      ∃ r, findRecord st2.db entityId id = some r ∧
        r.state = RecState.completed ∧ r.completedAt = some t2 := by
  have hid : o.id = id := by simpa using List.find?_some hfind
  subst hid
  have hdb1 : (ctxComplete cfg st entityId o t1).db =
      markOnboarding st.db entityId o.id o.version RecState.completed t1 :=
    ctxComplete_db cfg st entityId o t1
  obtain ⟨hc1, -⟩ :=
    mark_completed_self st.db entityId o.id o.version t1 hcount
  have hcount1 : countRecord (ctxComplete cfg st entityId o t1).db entityId
      o.id ≤ 1 :=
    le_of_eq (by rw [hdb1, hc1])
  obtain ⟨hc2, r2, hr2, hs2, ht2⟩ :=
    mark_completed_self (ctxComplete cfg st entityId o t1).db entityId o.id
      o.version t2 hcount1
  have hdb2 : (ctxComplete cfg (ctxComplete cfg st entityId o t1) entityId
      o t2).db =
      markOnboarding (ctxComplete cfg st entityId o t1).db entityId o.id
        o.version RecState.completed t2 :=
    ctxComplete_db cfg (ctxComplete cfg st entityId o t1) entityId o t2
  refine ⟨ctxComplete cfg st entityId o t1,
    ctxComplete cfg (ctxComplete cfg st entityId o t1) entityId o t2,
    by simp [complete, hfind], by simp [complete, hfind], ?_, ?_⟩
  · rw [hdb2]
    exact hc2
  · exact ⟨r2, by rw [hdb2]; exact hr2, hs2, ht2⟩

/-- Witness for C8: completing `z` at times 10 then 20 ends with one record,
completed, `completedAt = 20`. -/
theorem C8_complete_idempotent_witness :
    countRecord C8st.db "e" "z" ≤ 1 ∧
    (∃ st1 st2,
      complete C8cfg C8st "e" "z" 10 = Except.ok st1 ∧
      complete C8cfg st1 "e" "z" 20 = Except.ok st2 ∧
      countRecord st2.db "e" "z" = 1 ∧
      ∃ r, findRecord st2.db "e" "z" = some r ∧
        r.state = RecState.completed ∧ r.completedAt = some 20) :=
  ⟨by decide,
   C8_complete_idempotent C8cfg C8st "e" "z" 10 20 C8defZ rfl (by decide)⟩

end ConvexOnboardings

